import Mathlib

set_option maxHeartbeats 1000000

/-! Shallow embedding of the poker hand evaluator in `src/main.c`.

Cards carry a rank character, a parsed integer value, and a suit character.
Machine `int` values are modelled as `Int`; array contents as `List Int`;
the `counts` array of `cards_get_value_counts` as a function `Nat → Nat`
giving the multiplicity of each value.  The in-place `counting_sort` of the
C program is modelled by the list it leaves in the array: the written
prefix (bucket contents in bucket order) followed by the stale tail of the
original array, which the C code never overwrites when fewer elements are
written than the array holds. -/

/-- Number of rank buckets used by the C program (`RANK_COUNT = 15`). -/
def RANK_COUNT : Nat := 15

/-- Model of `struct Card`: rank character, parsed integer value, suit character. -/
structure Card where
  rank : Char
  value : Int
  suit : Char
deriving DecidableEq

/-- Model of `struct Play`: score, play values (deciding values) and high values
(kickers).  The C `play_val_count`/`high_val_count` fields always equal the
lengths of the corresponding arrays, so lists suffice. -/
structure Play where
  score : Int
  play_vals : List Int
  high_vals : List Int
deriving DecidableEq

/-- Translation of `rank_to_value`: switch on the rank character, `-1` on the
default branch. -/
def rank_to_value (rank : Char) : Int :=
  if rank = '2' then 0
  else if rank = '3' then 1
  else if rank = '4' then 2
  else if rank = '5' then 3
  else if rank = '6' then 4
  else if rank = '7' then 5
  else if rank = '8' then 6
  else if rank = '9' then 7
  else if rank = 'T' then 8
  else if rank = 'J' then 9
  else if rank = 'Q' then 10
  else if rank = 'K' then 11
  else if rank = 'A' then 12
  else -1

/-- Translation of `value_to_rank`: switch on the integer value, `'\0'` on the
default branch. -/
def value_to_rank (value : Int) : Char :=
  if value = 0 then '2'
  else if value = 1 then '3'
  else if value = 2 then '4'
  else if value = 3 then '5'
  else if value = 4 then '6'
  else if value = 5 then '7'
  else if value = 6 then '8'
  else if value = 7 then '9'
  else if value = 8 then 'T'
  else if value = 9 then 'J'
  else if value = 10 then 'Q'
  else if value = 11 then 'K'
  else if value = 12 then 'A'
  else Char.ofNat 0

/-- Translation of `count_to_n_pairs`: switch on the multiplicity of a rank,
`-1` on the default branch.  Multiplicities are natural numbers. -/
def count_to_n_pairs (count : Nat) : Int :=
  if count = 0 then 0
  else if count = 1 then 0
  else if count = 2 then 1
  else if count = 3 then 3
  else if count = 4 then 6
  else -1

/-- Translation of `n_pairs_to_score`: switch on the summed pair units, `-1` on
the default branch. -/
def n_pairs_to_score (n_pairs : Int) : Int :=
  if n_pairs = 0 then 0
  else if n_pairs = 1 then 1
  else if n_pairs = 2 then 2
  else if n_pairs = 3 then 3
  else if n_pairs = 4 then 6
  else if n_pairs = 6 then 7
  else -1

/-- Translation of `card_make`: stores the rank character, the parsed value and
the suit character. -/
def card_make (rank : Char) (suit : Char) : Card :=
  { rank := rank, value := rank_to_value rank, suit := suit }

/-- Translation of `cards_get_values`. -/
def cards_get_values (cards : List Card) : List Int :=
  cards.map (·.value)

/-- Translation of `cards_get_suits`. -/
def cards_get_suits (cards : List Card) : List Char :=
  cards.map (·.suit)

/-- Translation of `cards_get_value_counts`: the counts array, as the function
sending each bucket index to the number of cards with that value. -/
def cards_get_value_counts (cards : List Card) : Nat → Nat :=
  fun i => (cards_get_values cards).count (i : Int)

/-- Contents written into an array by emitting, for each bucket index `i` of
`idxs` in order, `m i` copies of `i`.  Both phases of `counting_sort` and the
grouped-value lists of `calc_pairs` have this shape. -/
def bucketed (m : Nat → Nat) (idxs : List Nat) : List Int :=
  idxs.flatMap (fun i => List.replicate (m i) ((i : Nat) : Int))

/-- Bucket order of the reverse phase of `counting_sort`: the C loop
`for (i = el_max - 1; i > 0; i--)` visits `el_max - 1, …, 1` and never
visits bucket `0`. -/
def rev_buckets (el_max : Nat) : List Nat :=
  ((List.range (el_max - 1)).map (· + 1)).reverse

/-- Translation of `counting_sort`.  The result is the final contents of the
`vals` array: the written bucket contents followed by the stale tail of the
original array (the C code only overwrites as many slots as it writes). -/
def counting_sort (vals : List Int) (el_max : Nat) (reverse : Bool) : List Int :=
  let m : Nat → Nat := fun i => vals.count ((i : Nat) : Int)
  let written : List Int :=
    if reverse then bucketed m (rev_buckets el_max)
    else bucketed m (List.range el_max)
  written ++ vals.drop written.length

/-- Translation of `calc_pairs`: sums pair units over the counts array, maps the
sum to a score, and splits the values into grouped (`play_vals`) and singleton
(`high_vals`) buckets, each in ascending bucket order. -/
def calc_pairs (cards : List Card) : Play :=
  let counts := cards_get_value_counts cards
  let n_pairs : Int := ∑ i ∈ Finset.range RANK_COUNT, count_to_n_pairs (counts i)
  { score := n_pairs_to_score n_pairs
    play_vals := bucketed (fun i => if 1 < counts i then counts i else 0) (List.range RANK_COUNT)
    high_vals := bucketed (fun i => if counts i = 1 then counts i else 0) (List.range RANK_COUNT) }

/-- Loop of `is_straight`: checks that each element is the predecessor's
successor, scanning left to right. -/
def straight_run : List Int → Bool
  | a :: b :: rest => (a + 1 == b) && straight_run (b :: rest)
  | _ => true

/-- Translation of `is_straight`: ascending counting sort, then the
consecutive-values scan. -/
def is_straight (cards : List Card) : Bool :=
  straight_run (counting_sort (cards_get_values cards) RANK_COUNT false)

/-- Translation of `is_flush`: all suits equal the first suit. -/
def is_flush (cards : List Card) : Bool :=
  match cards_get_suits cards with
  | [] => true
  | s :: rest => rest.all (fun t => t == s)

/-- Translation of `is_royal`: ascending counting sort, then elementwise
comparison with the values of `T J Q K A`. -/
def is_royal (cards : List Card) : Bool :=
  counting_sort (cards_get_values cards) RANK_COUNT false == [8, 9, 10, 11, 12]

/-- Translation of `calculate_play`: the pair-based play, then the straight,
flush, straight-flush and royal-flush overrides in source order. -/
def calculate_play (cards : List Card) : Play :=
  let values := cards_get_values cards
  let p0 := calc_pairs cards
  let p1 := if is_straight cards = true ∧ p0.score < 4 then
      { score := 4, play_vals := values, high_vals := [] } else p0
  let p2 := if is_flush cards = true ∧ p1.score < 5 then
      { score := 5, play_vals := values, high_vals := [] } else p1
  if is_straight cards = true ∧ is_flush cards = true then
    if is_royal cards = true then { score := 9, play_vals := [], high_vals := [] }
    else { score := 8, play_vals := values, high_vals := [] }
  else p2

/-- Shared loop of `high_vals_cmp` and `play_vals_cmp`: first mismatch decides,
otherwise the length difference (the C code returns the difference of the
element counts, which equals the difference of the remaining lengths once the
common prefix is consumed). -/
def vals_lex_cmp : List Int → List Int → Int
  | a :: as_, b :: bs => if a ≠ b then a - b else vals_lex_cmp as_ bs
  | as_, bs => ((as_.length : Int) - (bs.length : Int))

/-- Translation of `high_vals_cmp`: reverse counting sort of both kicker lists,
then the lexicographic scan. -/
def high_vals_cmp (a b : Play) : Int :=
  vals_lex_cmp (counting_sort a.high_vals RANK_COUNT true)
    (counting_sort b.high_vals RANK_COUNT true)

/-- Translation of `play_vals_cmp`: reverse counting sort of both deciding-value
lists, then the lexicographic scan. -/
def play_vals_cmp (a b : Play) : Int :=
  vals_lex_cmp (counting_sort a.play_vals RANK_COUNT true)
    (counting_sort b.play_vals RANK_COUNT true)

/-- Translation of `play_cmp`: score first, then deciding values, then kickers. -/
def play_cmp (a b : Play) : Int :=
  if a.score ≠ b.score then a.score - b.score
  else if play_vals_cmp a b ≠ 0 then play_vals_cmp a b
  else high_vals_cmp a b

/-- Modelled from the spec: the sum-to-category table exactly as the claim
states it, keyed by the summed pair units, with unmapped sums treated as an
internal invariant violation (`-1`). -/
def spec_sum_to_category_claimed (n : Int) : Int :=
  if n = 0 then 0
  else if n = 1 then 1
  else if n = 2 then 2
  else if n = 3 then 3
  else if n = 6 then 6
  else if n = 7 then 7
  else -1

/-- Modelled from the spec: the amended sum-to-category table, keyed by the
summed pair units: 0, 1, 2, 3 map to themselves, 4 maps to Full House (6) and
6 maps to Four of a Kind (7); unmapped sums are an invariant violation. -/
def spec_sum_to_category_amended (n : Int) : Int :=
  if n = 0 then 0
  else if n = 1 then 1
  else if n = 2 then 2
  else if n = 3 then 3
  else if n = 4 then 6
  else if n = 6 then 7
  else -1

/-- Modelled from the spec: a correct descending sort of a value list, used to
express the comparison the spec describes. -/
def spec_desc_sort (l : List Int) : List Int :=
  (counting_sort l RANK_COUNT false).reverse

/-- Modelled from the spec: the comparator of section 4.4 — category first,
then descending-sorted deciding values lexicographically, then
descending-sorted kickers lexicographically, longer sequence winning at a
strict-prefix mismatch. -/
def spec_play_cmp (a b : Play) : Int :=
  if a.score ≠ b.score then a.score - b.score
  else if vals_lex_cmp (spec_desc_sort a.play_vals) (spec_desc_sort b.play_vals) ≠ 0 then
    vals_lex_cmp (spec_desc_sort a.play_vals) (spec_desc_sort b.play_vals)
  else vals_lex_cmp (spec_desc_sort a.high_vals) (spec_desc_sort b.high_vals)

lemma vals_lex_cmp_neg (xs ys : List Int) : vals_lex_cmp xs ys = -vals_lex_cmp ys xs := by
  induction xs generalizing ys with
  | nil => cases ys <;> simp [vals_lex_cmp]
  | cons x xs ih =>
    cases ys with
    | nil => simp [vals_lex_cmp]
    | cons y ys =>
      by_cases h : x = y
      · subst h
        simpa [vals_lex_cmp] using ih ys
      · have h' : y ≠ x := Ne.symm h
        simp only [vals_lex_cmp, if_pos h, if_pos h']
        omega

/-- C8: `play_cmp` is a total order test: for any two plays the result is
negative, zero or positive with exactly one of the three holding, and the
result under swapped arguments is the exact negation. -/
theorem c8_play_cmp_total_antisymm (a b : Play) :
    play_cmp a b = -play_cmp b a ∧
    ((play_cmp a b < 0 ∧ ¬ play_cmp a b = 0 ∧ ¬ 0 < play_cmp a b) ∨
     (play_cmp a b = 0 ∧ ¬ play_cmp a b < 0 ∧ ¬ 0 < play_cmp a b) ∨
     (0 < play_cmp a b ∧ ¬ play_cmp a b < 0 ∧ ¬ play_cmp a b = 0)) := by
  constructor
  · unfold play_cmp play_vals_cmp high_vals_cmp
    by_cases hs : a.score = b.score
    · simp only [hs, ne_eq, not_true_eq_false, if_false, if_neg]
      rw [vals_lex_cmp_neg (counting_sort a.play_vals RANK_COUNT true)]
      rw [vals_lex_cmp_neg (counting_sort a.high_vals RANK_COUNT true)]
      by_cases hp :
          vals_lex_cmp (counting_sort b.play_vals RANK_COUNT true)
            (counting_sort a.play_vals RANK_COUNT true) = 0
      · simp [hp]
      · have hp' : ¬ -vals_lex_cmp (counting_sort b.play_vals RANK_COUNT true)
            (counting_sort a.play_vals RANK_COUNT true) = 0 := by omega
        simp [hp, hp']
    · have hs' : ¬ b.score = a.score := fun h => hs h.symm
      simp only [ne_eq, hs, hs', not_false_eq_true, if_true]
      omega
  · omega

theorem c8_play_cmp_total_antisymm_witness :
    play_cmp { score := 1, play_vals := [4, 4], high_vals := [11, 5, 0] }
        { score := 1, play_vals := [6, 6], high_vals := [8, 3, 1] } =
      -play_cmp { score := 1, play_vals := [6, 6], high_vals := [8, 3, 1] }
        { score := 1, play_vals := [4, 4], high_vals := [11, 5, 0] } :=
  (c8_play_cmp_total_antisymm
    { score := 1, play_vals := [4, 4], high_vals := [11, 5, 0] }
    { score := 1, play_vals := [6, 6], high_vals := [8, 3, 1] }).1

/-- C9: converting a rank ordinal 0..12 to its rank token and parsing it back
yields the original ordinal. -/
theorem c9_rank_roundtrip (v : Int) (h0 : 0 ≤ v) (h12 : v ≤ 12) :
    rank_to_value (value_to_rank v) = v := by
  interval_cases v <;> decide

theorem c9_rank_roundtrip_witness :
    rank_to_value (value_to_rank 12) = 12 :=
  c9_rank_roundtrip 12 (by decide) (by decide)

/-- C7: comparing the two royal-flush hands `AH KH QH JH TH` and
`AC KC QC JC TC` yields a draw: both classify as Royal Flush with empty
deciding and kicker sequences, and `play_cmp` returns zero. -/
theorem c7_royal_flush_draw :
    (calculate_play [card_make 'A' 'H', card_make 'K' 'H', card_make 'Q' 'H',
        card_make 'J' 'H', card_make 'T' 'H']).score = 9 ∧
    (calculate_play [card_make 'A' 'C', card_make 'K' 'C', card_make 'Q' 'C',
        card_make 'J' 'C', card_make 'T' 'C']).score = 9 ∧
    (calculate_play [card_make 'A' 'H', card_make 'K' 'H', card_make 'Q' 'H',
        card_make 'J' 'H', card_make 'T' 'H']).play_vals = [] ∧
    (calculate_play [card_make 'A' 'H', card_make 'K' 'H', card_make 'Q' 'H',
        card_make 'J' 'H', card_make 'T' 'H']).high_vals = [] ∧
    play_cmp
      (calculate_play [card_make 'A' 'H', card_make 'K' 'H', card_make 'Q' 'H',
        card_make 'J' 'H', card_make 'T' 'H'])
      (calculate_play [card_make 'A' 'C', card_make 'K' 'C', card_make 'Q' 'C',
        card_make 'J' 'C', card_make 'T' 'C']) = 0 := by
  refine ⟨by decide, by decide, by decide, by decide, by decide⟩

/-- C2: the comparator does not handle rank ordinal 0 (rank 2): the reverse
phase of `counting_sort` never writes bucket 0, so a kicker list containing
ordinal 0 is left with a stale value in its tail.  For the pair hands
`3H 3D 7C 5S 2H` and `3S 3C 7D 5H 4C` (equal category and equal deciding
values) the code declares the first hand the winner, while the comparison the
claim describes (lexicographic on correctly descending-sorted kickers, spec
section 4.4) declares the second hand the winner. -/
theorem c2_kicker_ordinal_zero_code_bug :
    counting_sort [0, 3, 5] RANK_COUNT true = [5, 3, 5] ∧
    (calculate_play [card_make '3' 'H', card_make '3' 'D', card_make '7' 'C',
        card_make '5' 'S', card_make '2' 'H']).high_vals = [0, 3, 5] ∧
    0 < play_cmp
      (calculate_play [card_make '3' 'H', card_make '3' 'D', card_make '7' 'C',
        card_make '5' 'S', card_make '2' 'H'])
      (calculate_play [card_make '3' 'S', card_make '3' 'C', card_make '7' 'D',
        card_make '5' 'H', card_make '4' 'C']) ∧
    spec_play_cmp
      (calculate_play [card_make '3' 'H', card_make '3' 'D', card_make '7' 'C',
        card_make '5' 'S', card_make '2' 'H'])
      (calculate_play [card_make '3' 'S', card_make '3' 'C', card_make '7' 'D',
        card_make '5' 'H', card_make '4' 'C']) < 0 := by
  refine ⟨by decide, by decide, by decide, by decide⟩

/-- C4 counterexample: on the invalid rank character `'Z'`, `rank_to_value`
does not fail — it silently returns the sentinel `-1`, and `card_make`
stores that bogus out-of-range ordinal in the card. -/
theorem c4_invalid_rank_counterexample :
    rank_to_value 'Z' = -1 ∧
    (card_make 'Z' 'H').value = -1 ∧
    ¬ (0 ≤ (card_make 'Z' 'H').value ∧ (card_make 'Z' 'H').value ≤ 12) := by
  refine ⟨by decide, by decide, by decide⟩

/-- C4 amended: rank parsing maps exactly `'2'..'9','T','J','Q','K','A'` to
ordinals 0..12 and maps every other character to the sentinel `-1` instead of
failing; `card_make` stores the sentinel as the card value. -/
theorem c4_rank_parsing_amended (c : Char) (s : Char)
    (h : c ∉ ['2', '3', '4', '5', '6', '7', '8', '9', 'T', 'J', 'Q', 'K', 'A']) :
    rank_to_value c = -1 ∧ (card_make c s).value = -1 ∧
    (rank_to_value '2' = 0 ∧ rank_to_value '3' = 1 ∧ rank_to_value '4' = 2 ∧
      rank_to_value '5' = 3 ∧ rank_to_value '6' = 4 ∧ rank_to_value '7' = 5 ∧
      rank_to_value '8' = 6 ∧ rank_to_value '9' = 7 ∧ rank_to_value 'T' = 8 ∧
      rank_to_value 'J' = 9 ∧ rank_to_value 'Q' = 10 ∧ rank_to_value 'K' = 11 ∧
      rank_to_value 'A' = 12) := by
  simp only [List.mem_cons, List.mem_singleton, not_or, List.not_mem_nil,
    not_false_eq_true, and_true] at h
  obtain ⟨h1, h2, h3, h4, h5, h6, h7, h8, h9, h10, h11, h12, h13⟩ := h
  refine ⟨?_, ?_, by decide⟩
  · simp [rank_to_value, h1, h2, h3, h4, h5, h6, h7, h8, h9, h10, h11, h12, h13]
  · simp [card_make, rank_to_value,
      h1, h2, h3, h4, h5, h6, h7, h8, h9, h10, h11, h12, h13]

theorem c4_rank_parsing_amended_witness :
    rank_to_value 'Z' = -1 ∧ (card_make 'Z' 'H').value = -1 :=
  ⟨(c4_rank_parsing_amended 'Z' 'H' (by decide)).1,
   (c4_rank_parsing_amended 'Z' 'H' (by decide)).2.1⟩

lemma bucketed_append (m : Nat → Nat) (l₁ l₂ : List Nat) :
    bucketed m (l₁ ++ l₂) = bucketed m l₁ ++ bucketed m l₂ := by
  simp [bucketed]

lemma bucketed_singleton (m : Nat → Nat) (i : Nat) :
    bucketed m [i] = List.replicate (m i) ((i : Nat) : Int) := by
  simp [bucketed]

lemma mem_bucketed_range {m : Nat → Nat} {n : Nat} {x : Int}
    (hx : x ∈ bucketed m (List.range n)) : 0 ≤ x ∧ x < (n : Int) := by
  simp only [bucketed, List.mem_flatMap, List.mem_range] at hx
  obtain ⟨i, hi, hxi⟩ := hx
  have := List.eq_of_mem_replicate hxi
  subst this
  refine ⟨Int.natCast_nonneg i, ?_⟩
  exact_mod_cast hi

lemma count_bucketed_range (m : Nat → Nat) (n : Nat) (j : Int) :
    (bucketed m (List.range n)).count j =
      if 0 ≤ j ∧ j < (n : Int) then m j.toNat else 0 := by
  induction n with
  | zero =>
    simp only [bucketed, List.range_zero, List.flatMap_nil, List.count_nil]
    rw [if_neg (by omega)]
  | succ n ih =>
    rw [List.range_succ, bucketed_append, List.count_append, ih, bucketed_singleton,
      List.count_replicate]
    simp only [beq_iff_eq]
    by_cases hj : (n : Int) = j
    · subst hj
      rw [if_pos rfl, if_neg (by omega), if_pos (by omega)]
      simp
    · rw [if_neg hj]
      by_cases h0 : 0 ≤ j ∧ j < (n : Int)
      · rw [if_pos h0, if_pos (by omega)]
        omega
      · rw [if_neg h0, if_neg (by omega)]

lemma bucketed_range_perm (l : List Int) (n : Nat)
    (hl : ∀ x ∈ l, 0 ≤ x ∧ x < (n : Int)) :
    (bucketed (fun i => l.count ((i : Nat) : Int)) (List.range n)).Perm l := by
  rw [List.perm_iff_count]
  intro a
  rw [count_bucketed_range]
  by_cases ha : 0 ≤ a ∧ a < (n : Int)
  · rw [if_pos ha]
    have h : ((a.toNat : Nat) : Int) = a := Int.toNat_of_nonneg ha.1
    rw [h]
  · rw [if_neg ha]
    symm
    rw [List.count_eq_zero]
    intro hmem
    exact ha (hl a hmem)

lemma sorted_replicate (k : Nat) (c : Int) : (List.replicate k c).Sorted (· ≤ ·) := by
  induction k with
  | zero => simp
  | succ k ih =>
    rw [List.replicate_succ, List.sorted_cons]
    exact ⟨fun b hb => le_of_eq (List.eq_of_mem_replicate hb).symm, ih⟩

lemma sorted_bucketed_range (m : Nat → Nat) (n : Nat) :
    (bucketed m (List.range n)).Sorted (· ≤ ·) := by
  induction n with
  | zero => simp [bucketed]
  | succ n ih =>
    rw [List.range_succ, bucketed_append, bucketed_singleton]
    rw [List.Sorted, List.pairwise_append]
    refine ⟨ih, sorted_replicate _ _, ?_⟩
    intro x hx y hy
    have hx' := mem_bucketed_range hx
    have hy' := List.eq_of_mem_replicate hy
    subst hy'
    exact le_of_lt hx'.2

lemma counting_sort_false_eq (l : List Int) (n : Nat)
    (hl : ∀ x ∈ l, 0 ≤ x ∧ x < (n : Int)) :
    counting_sort l n false =
      bucketed (fun i => l.count ((i : Nat) : Int)) (List.range n) := by
  unfold counting_sort
  simp only [Bool.false_eq_true, if_false]
  rw [(bucketed_range_perm l n hl).length_eq, List.drop_length, List.append_nil]

lemma counting_sort_false_perm (l : List Int) (n : Nat)
    (hl : ∀ x ∈ l, 0 ≤ x ∧ x < (n : Int)) :
    (counting_sort l n false).Perm l := by
  rw [counting_sort_false_eq l n hl]
  exact bucketed_range_perm l n hl

lemma counting_sort_false_sorted (l : List Int) (n : Nat)
    (hl : ∀ x ∈ l, 0 ≤ x ∧ x < (n : Int)) :
    (counting_sort l n false).Sorted (· ≤ ·) := by
  rw [counting_sort_false_eq l n hl]
  exact sorted_bucketed_range _ n

lemma list_len5 {α : Type} (l : List α) (h : l.length = 5) :
    ∃ a b c d e, l = [a, b, c, d, e] := by
  rcases l with _ | ⟨a, l⟩
  · simp at h
  rcases l with _ | ⟨b, l⟩
  · simp at h
  rcases l with _ | ⟨c, l⟩
  · simp at h
  rcases l with _ | ⟨d, l⟩
  · simp at h
  rcases l with _ | ⟨e, l⟩
  · simp at h
  rcases l with _ | ⟨f, l⟩
  · exact ⟨a, b, c, d, e, rfl⟩
  · simp at h

lemma straight_run_five (a b c d e : Int) :
    straight_run [a, b, c, d, e] = true ↔
      b = a + 1 ∧ c = b + 1 ∧ d = c + 1 ∧ e = d + 1 := by
  simp only [straight_run, Bool.and_eq_true, beq_iff_eq]
  constructor
  · rintro ⟨h1, h2, h3, h4, _⟩
    omega
  · rintro ⟨h1, h2, h3, h4⟩
    refine ⟨by omega, by omega, by omega, by omega, trivial⟩

lemma sorted_consecutive_five (v : Int) :
    ([v, v + 1, v + 2, v + 3, v + 4] : List Int).Sorted (· ≤ ·) := by
  refine List.pairwise_cons.mpr ⟨?_, List.pairwise_cons.mpr ⟨?_, List.pairwise_cons.mpr
    ⟨?_, List.pairwise_cons.mpr ⟨?_, List.pairwise_singleton _ _⟩⟩⟩⟩ <;>
    intro b hb <;> fin_cases hb <;> omega

lemma values_in_range (cards : List Card)
    (hval : ∀ cd ∈ cards, 0 ≤ cd.value ∧ cd.value ≤ 12) :
    ∀ x ∈ cards_get_values cards, 0 ≤ x ∧ x < ((RANK_COUNT : Nat) : Int) := by
  intro x hx
  simp only [cards_get_values, List.mem_map] at hx
  obtain ⟨cd, hcd, rfl⟩ := hx
  have h := hval cd hcd
  refine ⟨h.1, ?_⟩
  have h12 := h.2
  norm_num [RANK_COUNT]
  omega

/-- C6: `is_straight` holds exactly when the five values form five consecutive
integers (Ace strictly high, no wraparound); a repeated rank is never a
straight, and the Ace-low wheel `A 2 3 4 5` is not recognized. -/
theorem c6_is_straight_iff (cards : List Card)
    (hlen : cards.length = 5)
    (hval : ∀ cd ∈ cards, 0 ≤ cd.value ∧ cd.value ≤ 12) :
    (is_straight cards = true ↔
      ∃ v : Int, (cards_get_values cards).Perm [v, v + 1, v + 2, v + 3, v + 4]) ∧
    (∀ x : Int, 2 ≤ (cards_get_values cards).count x → is_straight cards = false) ∧
    is_straight [card_make 'A' 'H', card_make '2' 'D', card_make '3' 'C',
      card_make '4' 'S', card_make '5' 'H'] = false := by
  have hl := values_in_range cards hval
  have hperm := counting_sort_false_perm (cards_get_values cards) RANK_COUNT hl
  have hsorted := counting_sort_false_sorted (cards_get_values cards) RANK_COUNT hl
  have hmain : is_straight cards = true ↔
      ∃ v : Int, (cards_get_values cards).Perm [v, v + 1, v + 2, v + 3, v + 4] := by
    constructor
    · intro h
      have hslen : (counting_sort (cards_get_values cards) RANK_COUNT false).length = 5 := by
        rw [hperm.length_eq]
        simp [cards_get_values, hlen]
      obtain ⟨a, b, c, d, e, hs⟩ := list_len5 _ hslen
      simp only [is_straight] at h
      rw [hs] at h
      obtain ⟨hb, hc, hd, he⟩ := (straight_run_five a b c d e).mp h
      subst hb
      subst hc
      subst hd
      subst he
      have hvp := hperm.symm
      rw [hs] at hvp
      refine ⟨a, ?_⟩
      have hl5 : ([a, a + 1, a + 1 + 1, a + 1 + 1 + 1, a + 1 + 1 + 1 + 1] : List Int) =
          [a, a + 1, a + 2, a + 3, a + 4] := by
        simp only [List.cons.injEq, and_true, true_and]
        refine ⟨by omega, by omega, by omega⟩
      rw [hl5] at hvp
      exact hvp
    · rintro ⟨v, hp⟩
      have heq : counting_sort (cards_get_values cards) RANK_COUNT false =
          [v, v + 1, v + 2, v + 3, v + 4] :=
        List.eq_of_perm_of_sorted (hperm.trans hp) hsorted (sorted_consecutive_five v)
      simp only [is_straight]
      rw [heq]
      exact (straight_run_five v (v + 1) (v + 2) (v + 3) (v + 4)).mpr
        ⟨rfl, by omega, by omega, by omega⟩
  refine ⟨hmain, ?_, by decide⟩
  intro x hx
  by_contra hfalse
  have htrue : is_straight cards = true := by
    cases h : is_straight cards
    · exact absurd h hfalse
    · rfl
  obtain ⟨v, hp⟩ := hmain.mp htrue
  have hnodup : ([v, v + 1, v + 2, v + 3, v + 4] : List Int).Nodup := by
    simp only [List.nodup_cons, List.mem_cons, List.mem_singleton, List.not_mem_nil,
      not_or, List.nodup_nil, and_true, List.not_mem_nil, not_false_eq_true]
    refine ⟨⟨by omega, by omega, by omega, by omega⟩, ⟨by omega, by omega, by omega⟩,
      ⟨by omega, by omega⟩, by omega⟩
  have hcnt := hp.count_eq x
  have hle := (List.nodup_iff_count_le_one.mp hnodup) x
  omega

theorem c6_is_straight_iff_witness :
    is_straight [card_make '6' 'H', card_make '3' 'D', card_make '4' 'C',
      card_make '5' 'S', card_make '7' 'H'] = true :=
  (c6_is_straight_iff
    [card_make '6' 'H', card_make '3' 'D', card_make '4' 'C',
      card_make '5' 'S', card_make '7' 'H'] (by decide) (by decide)).1.mpr
    ⟨1, by decide⟩

/-- C5: a hand that is simultaneously a straight and a flush always classifies
as Straight Flush (8) — never Flush (5) or Straight (4); if it moreover holds
exactly the ranks `T J Q K A` it classifies as Royal Flush (9) with empty
deciding values. -/
theorem c5_straight_flush_precedence (cards : List Card)
    (hval : ∀ cd ∈ cards, 0 ≤ cd.value ∧ cd.value ≤ 12)
    (hS : is_straight cards = true) (hF : is_flush cards = true) :
    (calculate_play cards).score = (if is_royal cards = true then 9 else 8) ∧
    (is_royal cards = true ↔ (cards_get_values cards).Perm [8, 9, 10, 11, 12]) ∧
    ((cards_get_values cards).Perm [8, 9, 10, 11, 12] →
      (calculate_play cards).score = 9 ∧ (calculate_play cards).play_vals = [] ∧
      (calculate_play cards).high_vals = []) ∧
    (¬ (cards_get_values cards).Perm [8, 9, 10, 11, 12] →
      (calculate_play cards).score = 8 ∧
      (calculate_play cards).play_vals = cards_get_values cards) := by
  have hl := values_in_range cards hval
  have hperm := counting_sort_false_perm (cards_get_values cards) RANK_COUNT hl
  have hsorted := counting_sort_false_sorted (cards_get_values cards) RANK_COUNT hl
  have hroyal : is_royal cards = true ↔ (cards_get_values cards).Perm [8, 9, 10, 11, 12] := by
    rw [is_royal, beq_iff_eq]
    constructor
    · intro h
      exact (h ▸ hperm).symm
    · intro hp
      refine List.eq_of_perm_of_sorted (hperm.trans hp) hsorted ?_
      decide
  have hplay : (calculate_play cards).score = (if is_royal cards = true then 9 else 8) ∧
      (is_royal cards = true → (calculate_play cards).play_vals = [] ∧
        (calculate_play cards).high_vals = []) ∧
      (is_royal cards = false →
        (calculate_play cards).play_vals = cards_get_values cards) := by
    by_cases hR : is_royal cards = true
    · simp [calculate_play, hS, hF, hR]
    · have hR' : is_royal cards = false := by
        cases h : is_royal cards
        · rfl
        · exact absurd h hR
      simp [calculate_play, hS, hF, hR']
  refine ⟨hplay.1, hroyal, ?_, ?_⟩
  · intro hp
    have hR := hroyal.mpr hp
    refine ⟨?_, hplay.2.1 hR⟩
    rw [hplay.1, if_pos hR]
  · intro hp
    have hR' : is_royal cards = false := by
      cases h : is_royal cards
      · rfl
      · exact absurd (hroyal.mp h) hp
    constructor
    · rw [hplay.1, if_neg (by simp [hR'])]
    · exact hplay.2.2 hR'

theorem c5_straight_flush_precedence_witness :
    (calculate_play [card_make 'A' 'D', card_make 'K' 'D', card_make 'Q' 'D',
        card_make 'J' 'D', card_make 'T' 'D']).score = 9 ∧
    (calculate_play [card_make 'A' 'D', card_make 'K' 'D', card_make 'Q' 'D',
        card_make 'J' 'D', card_make 'T' 'D']).play_vals = [] ∧
    (calculate_play [card_make 'A' 'D', card_make 'K' 'D', card_make 'Q' 'D',
        card_make 'J' 'D', card_make 'T' 'D']).high_vals = [] :=
  (c5_straight_flush_precedence
    [card_make 'A' 'D', card_make 'K' 'D', card_make 'Q' 'D',
      card_make 'J' 'D', card_make 'T' 'D'] (by decide) (by decide) (by decide)).2.2.1
    (by decide)

/-- Pair units of a multiplicity, as a natural number; agrees with
`count_to_n_pairs` on multiplicities up to 4. -/
def pair_units_nat (k : Nat) : Nat :=
  if k = 0 then 0
  else if k = 1 then 0
  else if k = 2 then 1
  else if k = 3 then 3
  else 6

lemma count_to_n_pairs_eq_cast (k : Nat) (hk : k ≤ 4) :
    count_to_n_pairs k = ((pair_units_nat k : Nat) : Int) := by
  interval_cases k <;> decide

/-- Pairs (sum of multiplicities, sum of pair units) reachable from
multiplicities bounded by 4, with total at most 5. -/
def reach_pairs : List (Nat × Nat) :=
  [(0, 0), (1, 0), (2, 0), (2, 1), (3, 0), (3, 1), (3, 3), (4, 0), (4, 1), (4, 2),
    (4, 3), (4, 6), (5, 0), (5, 1), (5, 2), (5, 3), (5, 4), (5, 6)]

lemma reach_pairs_closed (s u k : Nat) (hmem : (s, u) ∈ reach_pairs)
    (hk : k ≤ 4) (hsk : s + k ≤ 5) :
    (s + k, u + pair_units_nat k) ∈ reach_pairs := by
  have hb : s ≤ 5 ∧ u ≤ 6 := by
    simp only [reach_pairs, List.mem_cons, Prod.mk.injEq, List.not_mem_nil, or_false] at hmem
    omega
  obtain ⟨hs5, hu6⟩ := hb
  interval_cases s <;> interval_cases u <;> interval_cases k <;> revert hmem hsk <;> decide

lemma reach_pairs_five (u : Nat) (hmem : (5, u) ∈ reach_pairs) :
    u = 0 ∨ u = 1 ∨ u = 2 ∨ u = 3 ∨ u = 4 ∨ u = 6 := by
  simp only [reach_pairs, List.mem_cons, Prod.mk.injEq, List.not_mem_nil, or_false] at hmem
  omega

lemma counts_reach (c : Nat → Nat) (hc : ∀ i, c i ≤ 4)
    (hsum : ∑ i ∈ Finset.range 15, c i = 5) :
    ∀ n, n ≤ 15 →
      (∑ i ∈ Finset.range n, c i, ∑ i ∈ Finset.range n, pair_units_nat (c i)) ∈ reach_pairs := by
  intro n
  induction n with
  | zero =>
    intro _
    simp only [Finset.range_zero, Finset.sum_empty]
    decide
  | succ n ih =>
    intro hn
    have hsub : ∑ i ∈ Finset.range (n + 1), c i ≤ 5 := by
      rw [← hsum]
      exact Finset.sum_le_sum_of_subset (Finset.range_subset.mpr hn)
    rw [Finset.sum_range_succ] at hsub
    rw [Finset.sum_range_succ, Finset.sum_range_succ]
    exact reach_pairs_closed _ _ _ (ih (by omega)) (hc n) hsub

lemma length_bucketed_range (m : Nat → Nat) (n : Nat) :
    (bucketed m (List.range n)).length = ∑ i ∈ Finset.range n, m i := by
  induction n with
  | zero => simp [bucketed]
  | succ n ih =>
    rw [List.range_succ, bucketed_append, List.length_append, ih, bucketed_singleton,
      List.length_replicate, Finset.sum_range_succ]

lemma counts_sum_eq (cards : List Card) (hlen : cards.length = 5)
    (hval : ∀ cd ∈ cards, 0 ≤ cd.value ∧ cd.value ≤ 12) :
    ∑ i ∈ Finset.range RANK_COUNT, cards_get_value_counts cards i = 5 := by
  have hl := values_in_range cards hval
  have hperm := bucketed_range_perm (cards_get_values cards) RANK_COUNT hl
  have hlenb := hperm.length_eq
  rw [length_bucketed_range] at hlenb
  rw [show cards_get_value_counts cards = fun i => (cards_get_values cards).count ((i : Nat) : Int)
    from rfl]
  rw [hlenb]
  simp [cards_get_values, hlen]

lemma counts_le_four (cards : List Card)
    (hno5 : ∀ x ∈ cards_get_values cards, (cards_get_values cards).count x ≤ 4) :
    ∀ i : Nat, cards_get_value_counts cards i ≤ 4 := by
  intro i
  by_cases hm : ((i : Nat) : Int) ∈ cards_get_values cards
  · exact hno5 _ hm
  · simp [cards_get_value_counts, List.count_eq_zero_of_not_mem hm]

lemma calc_pairs_npairs_mem (cards : List Card) (hlen : cards.length = 5)
    (hval : ∀ cd ∈ cards, 0 ≤ cd.value ∧ cd.value ≤ 12)
    (hno5 : ∀ x ∈ cards_get_values cards, (cards_get_values cards).count x ≤ 4) :
    ∃ U : Nat,
      (∑ i ∈ Finset.range RANK_COUNT,
        count_to_n_pairs (cards_get_value_counts cards i)) = ((U : Nat) : Int) ∧
      (U = 0 ∨ U = 1 ∨ U = 2 ∨ U = 3 ∨ U = 4 ∨ U = 6) := by
  have hc4 := counts_le_four cards hno5
  have hsum := counts_sum_eq cards hlen hval
  refine ⟨∑ i ∈ Finset.range RANK_COUNT, pair_units_nat (cards_get_value_counts cards i), ?_, ?_⟩
  · rw [Nat.cast_sum]
    exact Finset.sum_congr rfl (fun i _ => count_to_n_pairs_eq_cast _ (hc4 i))
  · have hr := counts_reach (cards_get_value_counts cards) hc4 hsum 15 le_rfl
    rw [show (15 : Nat) = RANK_COUNT from rfl, hsum] at hr
    exact reach_pairs_five _ hr

lemma calc_pairs_score_def (cards : List Card) :
    (calc_pairs cards).score =
      n_pairs_to_score (∑ i ∈ Finset.range RANK_COUNT,
        count_to_n_pairs (cards_get_value_counts cards i)) := rfl

lemma calc_pairs_score_cases (cards : List Card) (hlen : cards.length = 5)
    (hval : ∀ cd ∈ cards, 0 ≤ cd.value ∧ cd.value ≤ 12)
    (hno5 : ∀ x ∈ cards_get_values cards, (cards_get_values cards).count x ≤ 4) :
    (calc_pairs cards).score = 0 ∨ (calc_pairs cards).score = 1 ∨
    (calc_pairs cards).score = 2 ∨ (calc_pairs cards).score = 3 ∨
    (calc_pairs cards).score = 6 ∨ (calc_pairs cards).score = 7 := by
  obtain ⟨U, hU, hcases⟩ := calc_pairs_npairs_mem cards hlen hval hno5
  rw [calc_pairs_score_def, hU]
  rcases hcases with rfl | rfl | rfl | rfl | rfl | rfl <;> simp [n_pairs_to_score]

/-- C10 counterexample: the hand of five copies of `2H` has all five cards
carrying valid rank ordinals, yet one rank occurs five times, the pair-unit
sum hits the `-1` default branch of `count_to_n_pairs`, and `calc_pairs`
returns score `-1`, outside `{0, 1, 2, 3, 6, 7}`. -/
theorem c10_five_dup_counterexample :
    (∀ cd ∈ [card_make '2' 'H', card_make '2' 'H', card_make '2' 'H',
        card_make '2' 'H', card_make '2' 'H'], 0 ≤ cd.value ∧ cd.value ≤ 12) ∧
    count_to_n_pairs
      (cards_get_value_counts [card_make '2' 'H', card_make '2' 'H', card_make '2' 'H',
        card_make '2' 'H', card_make '2' 'H'] 0) = -1 ∧
    (calc_pairs [card_make '2' 'H', card_make '2' 'H', card_make '2' 'H',
        card_make '2' 'H', card_make '2' 'H']).score = -1 := by
  refine ⟨by decide, by decide, by decide⟩

/-- C10 amended: for a 5-card hand of valid rank ordinals in which no rank
occurs five times, the per-rank counts sum to 5, no `count_to_n_pairs` call
hits the `-1` branch, the pair-unit sum lies in `{0, 1, 2, 3, 4, 6}`,
`n_pairs_to_score` does not hit its `-1` branch, and the resulting score lies
in `{0, 1, 2, 3, 6, 7}`. -/
theorem c10_pair_sum_safety_amended (cards : List Card) (hlen : cards.length = 5)
    (hval : ∀ cd ∈ cards, 0 ≤ cd.value ∧ cd.value ≤ 12)
    (hno5 : ∀ x ∈ cards_get_values cards, (cards_get_values cards).count x ≤ 4) :
    (∑ i ∈ Finset.range RANK_COUNT, cards_get_value_counts cards i = 5) ∧
    (∀ i : Nat, count_to_n_pairs (cards_get_value_counts cards i) ≠ -1) ∧
    ((∑ i ∈ Finset.range RANK_COUNT,
        count_to_n_pairs (cards_get_value_counts cards i)) = 0 ∨
     (∑ i ∈ Finset.range RANK_COUNT,
        count_to_n_pairs (cards_get_value_counts cards i)) = 1 ∨
     (∑ i ∈ Finset.range RANK_COUNT,
        count_to_n_pairs (cards_get_value_counts cards i)) = 2 ∨
     (∑ i ∈ Finset.range RANK_COUNT,
        count_to_n_pairs (cards_get_value_counts cards i)) = 3 ∨
     (∑ i ∈ Finset.range RANK_COUNT,
        count_to_n_pairs (cards_get_value_counts cards i)) = 4 ∨
     (∑ i ∈ Finset.range RANK_COUNT,
        count_to_n_pairs (cards_get_value_counts cards i)) = 6) ∧
    n_pairs_to_score (∑ i ∈ Finset.range RANK_COUNT,
        count_to_n_pairs (cards_get_value_counts cards i)) ≠ -1 ∧
    ((calc_pairs cards).score = 0 ∨ (calc_pairs cards).score = 1 ∨
     (calc_pairs cards).score = 2 ∨ (calc_pairs cards).score = 3 ∨
     (calc_pairs cards).score = 6 ∨ (calc_pairs cards).score = 7) := by
  have hc4 := counts_le_four cards hno5
  obtain ⟨U, hU, hcases⟩ := calc_pairs_npairs_mem cards hlen hval hno5
  refine ⟨counts_sum_eq cards hlen hval, ?_, ?_, ?_, calc_pairs_score_cases cards hlen hval hno5⟩
  · intro i
    have h := hc4 i
    interval_cases (cards_get_value_counts cards i) <;> decide
  · rw [hU]
    rcases hcases with rfl | rfl | rfl | rfl | rfl | rfl <;> simp
  · rw [hU]
    rcases hcases with rfl | rfl | rfl | rfl | rfl | rfl <;> simp [n_pairs_to_score]

theorem c10_pair_sum_safety_amended_witness :
    (calc_pairs [card_make '2' 'C', card_make '2' 'D', card_make '2' 'H',
        card_make '2' 'S', card_make '3' 'H']).score = 0 ∨
    (calc_pairs [card_make '2' 'C', card_make '2' 'D', card_make '2' 'H',
        card_make '2' 'S', card_make '3' 'H']).score = 1 ∨
    (calc_pairs [card_make '2' 'C', card_make '2' 'D', card_make '2' 'H',
        card_make '2' 'S', card_make '3' 'H']).score = 2 ∨
    (calc_pairs [card_make '2' 'C', card_make '2' 'D', card_make '2' 'H',
        card_make '2' 'S', card_make '3' 'H']).score = 3 ∨
    (calc_pairs [card_make '2' 'C', card_make '2' 'D', card_make '2' 'H',
        card_make '2' 'S', card_make '3' 'H']).score = 6 ∨
    (calc_pairs [card_make '2' 'C', card_make '2' 'D', card_make '2' 'H',
        card_make '2' 'S', card_make '3' 'H']).score = 7 :=
  (c10_pair_sum_safety_amended
    [card_make '2' 'C', card_make '2' 'D', card_make '2' 'H',
      card_make '2' 'S', card_make '3' 'H'] (by decide) (by decide) (by decide)).2.2.2.2

lemma sum_npairs_one_special (c : Nat → Nat) (r : Nat) (hr : r < 15)
    (hother : ∀ i : Nat, i < 15 → i ≠ r → c i ≤ 1) :
    ∑ i ∈ Finset.range 15, count_to_n_pairs (c i) = count_to_n_pairs (c r) := by
  have hsub : ({r} : Finset Nat) ⊆ Finset.range 15 := by
    simp [Finset.singleton_subset_iff, Finset.mem_range, hr]
  have hz : ∀ x ∈ Finset.range 15, x ∉ ({r} : Finset Nat) → count_to_n_pairs (c x) = 0 := by
    intro x hx hnx
    have hx1 : c x ≤ 1 := hother x (Finset.mem_range.mp hx) (by simpa using hnx)
    interval_cases (c x) <;> decide
  rw [← Finset.sum_subset hsub hz, Finset.sum_singleton]

lemma sum_npairs_two_special (c : Nat → Nat) (r r' : Nat) (hr : r < 15) (hr' : r' < 15)
    (hne : r ≠ r')
    (hother : ∀ i : Nat, i < 15 → i ≠ r → i ≠ r' → c i ≤ 1) :
    ∑ i ∈ Finset.range 15, count_to_n_pairs (c i) =
      count_to_n_pairs (c r) + count_to_n_pairs (c r') := by
  have hsub : ({r, r'} : Finset Nat) ⊆ Finset.range 15 := by
    intro x hx
    simp only [Finset.mem_insert, Finset.mem_singleton] at hx
    rcases hx with rfl | rfl <;> simp [Finset.mem_range, hr, hr']
  have hz : ∀ x ∈ Finset.range 15, x ∉ ({r, r'} : Finset Nat) →
      count_to_n_pairs (c x) = 0 := by
    intro x hx hnx
    simp only [Finset.mem_insert, Finset.mem_singleton, not_or] at hnx
    have hx1 : c x ≤ 1 := hother x (Finset.mem_range.mp hx) hnx.1 hnx.2
    interval_cases (c x) <;> decide
  rw [← Finset.sum_subset hsub hz, Finset.sum_pair hne]

/-- C1 counterexample: for the four-of-a-kind hand `2C 2D 2H 2S 3H` the pair
units sum to 6, the claim's table sends 6 to Full House (category 6), but the
code classifies the hand as Four of a Kind (7); for the full-house hand
`2C 2D 2H 3S 3H` the units sum to 4, which the claim's table does not map at
all (it treats it as an invariant violation), yet the code correctly yields
Full House (6). -/
theorem c1_sum_table_counterexample :
    (∑ i ∈ Finset.range RANK_COUNT, count_to_n_pairs
      (cards_get_value_counts [card_make '2' 'C', card_make '2' 'D', card_make '2' 'H',
        card_make '2' 'S', card_make '3' 'H'] i)) = 6 ∧
    spec_sum_to_category_claimed 6 = 6 ∧
    (calc_pairs [card_make '2' 'C', card_make '2' 'D', card_make '2' 'H',
        card_make '2' 'S', card_make '3' 'H']).score = 7 ∧
    (calc_pairs [card_make '2' 'C', card_make '2' 'D', card_make '2' 'H',
        card_make '2' 'S', card_make '3' 'H']).score ≠ spec_sum_to_category_claimed 6 ∧
    (∑ i ∈ Finset.range RANK_COUNT, count_to_n_pairs
      (cards_get_value_counts [card_make '2' 'C', card_make '2' 'D', card_make '2' 'H',
        card_make '3' 'S', card_make '3' 'H'] i)) = 4 ∧
    spec_sum_to_category_claimed 4 = -1 ∧
    (calc_pairs [card_make '2' 'C', card_make '2' 'D', card_make '2' 'H',
        card_make '3' 'S', card_make '3' 'H']).score = 6 := by
  refine ⟨by decide, by decide, by decide, by decide, by decide, by decide, by decide⟩

/-- C1 amended: classification by the grouping pass counts rank occurrences,
converts each count to pair units (2 ↦ 1, 3 ↦ 3, 4 ↦ 6), sums the units, and
maps the sum through `{0 ↦ High Card 0, 1 ↦ Pair 1, 2 ↦ Two Pair 2,
3 ↦ Three of a Kind 3, 4 ↦ Full House 6, 6 ↦ Four of a Kind 7}`; one pair
yields Pair (sum 1), two pairs Two Pair (sum 2), one triple Three of a Kind
(sum 3), a triple plus a pair Full House (sum 4, score 6), one quadruple
Four of a Kind (sum 6, score 7). -/
theorem c1_grouping_pass_amended (cards : List Card) (hlen : cards.length = 5)
    (hval : ∀ cd ∈ cards, 0 ≤ cd.value ∧ cd.value ≤ 12)
    (hno5 : ∀ x ∈ cards_get_values cards, (cards_get_values cards).count x ≤ 4) :
    ((calc_pairs cards).score = spec_sum_to_category_amended
      (∑ i ∈ Finset.range RANK_COUNT,
        count_to_n_pairs (cards_get_value_counts cards i))) ∧
    (∀ r : Nat, r < RANK_COUNT → cards_get_value_counts cards r = 2 →
      (∀ i : Nat, i < RANK_COUNT → i ≠ r → cards_get_value_counts cards i ≤ 1) →
      (∑ i ∈ Finset.range RANK_COUNT,
        count_to_n_pairs (cards_get_value_counts cards i)) = 1 ∧
      (calc_pairs cards).score = 1) ∧
    (∀ r r' : Nat, r < RANK_COUNT → r' < RANK_COUNT → r ≠ r' →
      cards_get_value_counts cards r = 2 → cards_get_value_counts cards r' = 2 →
      (∀ i : Nat, i < RANK_COUNT → i ≠ r → i ≠ r' → cards_get_value_counts cards i ≤ 1) →
      (∑ i ∈ Finset.range RANK_COUNT,
        count_to_n_pairs (cards_get_value_counts cards i)) = 2 ∧
      (calc_pairs cards).score = 2) ∧
    (∀ r : Nat, r < RANK_COUNT → cards_get_value_counts cards r = 3 →
      (∀ i : Nat, i < RANK_COUNT → i ≠ r → cards_get_value_counts cards i ≤ 1) →
      (∑ i ∈ Finset.range RANK_COUNT,
        count_to_n_pairs (cards_get_value_counts cards i)) = 3 ∧
      (calc_pairs cards).score = 3) ∧
    (∀ r r' : Nat, r < RANK_COUNT → r' < RANK_COUNT → r ≠ r' →
      cards_get_value_counts cards r = 3 → cards_get_value_counts cards r' = 2 →
      (∀ i : Nat, i < RANK_COUNT → i ≠ r → i ≠ r' → cards_get_value_counts cards i ≤ 1) →
      (∑ i ∈ Finset.range RANK_COUNT,
        count_to_n_pairs (cards_get_value_counts cards i)) = 4 ∧
      (calc_pairs cards).score = 6) ∧
    (∀ r : Nat, r < RANK_COUNT → cards_get_value_counts cards r = 4 →
      (∀ i : Nat, i < RANK_COUNT → i ≠ r → cards_get_value_counts cards i ≤ 1) →
      (∑ i ∈ Finset.range RANK_COUNT,
        count_to_n_pairs (cards_get_value_counts cards i)) = 6 ∧
      (calc_pairs cards).score = 7) := by
  refine ⟨?_, ?_, ?_, ?_, ?_, ?_⟩
  · obtain ⟨U, hU, hcases⟩ := calc_pairs_npairs_mem cards hlen hval hno5
    rw [calc_pairs_score_def, hU]
    rcases hcases with rfl | rfl | rfl | rfl | rfl | rfl <;> decide
  · intro r hr hcr hother
    have hs := sum_npairs_one_special (cards_get_value_counts cards) r hr hother
    rw [hcr] at hs
    refine ⟨by simp only [RANK_COUNT]; rw [hs]; decide, ?_⟩
    rw [calc_pairs_score_def]
    simp only [RANK_COUNT]
    rw [hs]
    decide
  · intro r r' hr hr' hne hcr hcr' hother
    have hs := sum_npairs_two_special (cards_get_value_counts cards) r r' hr hr' hne hother
    rw [hcr, hcr'] at hs
    refine ⟨by simp only [RANK_COUNT]; rw [hs]; decide, ?_⟩
    rw [calc_pairs_score_def]
    simp only [RANK_COUNT]
    rw [hs]
    decide
  · intro r hr hcr hother
    have hs := sum_npairs_one_special (cards_get_value_counts cards) r hr hother
    rw [hcr] at hs
    refine ⟨by simp only [RANK_COUNT]; rw [hs]; decide, ?_⟩
    rw [calc_pairs_score_def]
    simp only [RANK_COUNT]
    rw [hs]
    decide
  · intro r r' hr hr' hne hcr hcr' hother
    have hs := sum_npairs_two_special (cards_get_value_counts cards) r r' hr hr' hne hother
    rw [hcr, hcr'] at hs
    refine ⟨by simp only [RANK_COUNT]; rw [hs]; decide, ?_⟩
    rw [calc_pairs_score_def]
    simp only [RANK_COUNT]
    rw [hs]
    decide
  · intro r hr hcr hother
    have hs := sum_npairs_one_special (cards_get_value_counts cards) r hr hother
    rw [hcr] at hs
    refine ⟨by simp only [RANK_COUNT]; rw [hs]; decide, ?_⟩
    rw [calc_pairs_score_def]
    simp only [RANK_COUNT]
    rw [hs]
    decide

theorem c1_grouping_pass_amended_witness :
    (∑ i ∈ Finset.range RANK_COUNT, count_to_n_pairs
      (cards_get_value_counts [card_make '2' 'C', card_make '2' 'D', card_make '2' 'H',
        card_make '3' 'S', card_make '3' 'H'] i)) = 4 ∧
    (calc_pairs [card_make '2' 'C', card_make '2' 'D', card_make '2' 'H',
        card_make '3' 'S', card_make '3' 'H']).score = 6 :=
  (c1_grouping_pass_amended
    [card_make '2' 'C', card_make '2' 'D', card_make '2' 'H',
      card_make '3' 'S', card_make '3' 'H'] (by decide) (by decide)
    (by decide)).2.2.2.2.1 0 1 (by decide) (by decide) (by decide) (by decide)
    (by decide) (by decide)

lemma bucketed_range_nil (m : Nat → Nat) (n : Nat) (h : ∀ i : Nat, i < n → m i = 0) :
    bucketed m (List.range n) = [] := by
  induction n with
  | zero => simp [bucketed]
  | succ n ih =>
    rw [List.range_succ, bucketed_append, bucketed_singleton, h n (by omega),
      List.replicate_zero, List.append_nil]
    exact ih (fun i hi => h i (by omega))

lemma bucketed_range_congr (m m' : Nat → Nat) (n : Nat)
    (h : ∀ i : Nat, i < n → m i = m' i) :
    bucketed m (List.range n) = bucketed m' (List.range n) := by
  induction n with
  | zero => simp [bucketed]
  | succ n ih =>
    rw [List.range_succ, bucketed_append, bucketed_append, bucketed_singleton,
      bucketed_singleton, h n (by omega), ih (fun i hi => h i (by omega))]

lemma calc_pairs_lengths (cards : List Card) (hlen : cards.length = 5)
    (hval : ∀ cd ∈ cards, 0 ≤ cd.value ∧ cd.value ≤ 12) :
    (calc_pairs cards).play_vals.length + (calc_pairs cards).high_vals.length = 5 := by
  have h1 : (calc_pairs cards).play_vals =
      bucketed (fun i => if 1 < cards_get_value_counts cards i
        then cards_get_value_counts cards i else 0) (List.range RANK_COUNT) := rfl
  have h2 : (calc_pairs cards).high_vals =
      bucketed (fun i => if cards_get_value_counts cards i = 1
        then cards_get_value_counts cards i else 0) (List.range RANK_COUNT) := rfl
  rw [h1, h2, length_bucketed_range, length_bucketed_range, ← Finset.sum_add_distrib]
  have hptwise : ∀ i ∈ Finset.range RANK_COUNT,
      ((if 1 < cards_get_value_counts cards i then cards_get_value_counts cards i else 0) +
        (if cards_get_value_counts cards i = 1 then cards_get_value_counts cards i else 0)) =
        cards_get_value_counts cards i := by
    intro i _
    split_ifs <;> omega
  rw [Finset.sum_congr rfl hptwise]
  exact counts_sum_eq cards hlen hval

lemma n_pairs_to_score_eq_zero (z : Int) (h : n_pairs_to_score z = 0) : z = 0 := by
  unfold n_pairs_to_score at h
  split_ifs at h <;> omega

lemma calc_pairs_high_card (cards : List Card) (hlen : cards.length = 5)
    (hval : ∀ cd ∈ cards, 0 ≤ cd.value ∧ cd.value ≤ 12)
    (hno5 : ∀ x ∈ cards_get_values cards, (cards_get_values cards).count x ≤ 4)
    (h0 : (calc_pairs cards).score = 0) :
    (calc_pairs cards).play_vals = [] ∧
    (calc_pairs cards).high_vals.Perm (cards_get_values cards) ∧
    (calc_pairs cards).high_vals.Sorted (· ≤ ·) ∧
    (calc_pairs cards).high_vals.length = 5 := by
  have hc4 := counts_le_four cards hno5
  have hcast : (∑ i ∈ Finset.range RANK_COUNT,
      count_to_n_pairs (cards_get_value_counts cards i)) =
      ((∑ i ∈ Finset.range RANK_COUNT,
        pair_units_nat (cards_get_value_counts cards i) : Nat) : Int) := by
    rw [Nat.cast_sum]
    exact Finset.sum_congr rfl (fun i _ => count_to_n_pairs_eq_cast _ (hc4 i))
  rw [calc_pairs_score_def, hcast] at h0
  have hS0 : (∑ i ∈ Finset.range RANK_COUNT,
      pair_units_nat (cards_get_value_counts cards i)) = 0 := by
    exact_mod_cast n_pairs_to_score_eq_zero _ h0
  have hz := Finset.sum_eq_zero_iff.mp hS0
  have hle1 : ∀ i : Nat, i < RANK_COUNT → cards_get_value_counts cards i ≤ 1 := by
    intro i hi
    have hz' := hz i (Finset.mem_range.mpr hi)
    have h4 := hc4 i
    by_contra hgt
    have hcase : cards_get_value_counts cards i = 2 ∨ cards_get_value_counts cards i = 3 ∨
        cards_get_value_counts cards i = 4 := by omega
    rcases hcase with he | he | he <;> rw [he] at hz' <;> simp [pair_units_nat] at hz'
  have hplay : (calc_pairs cards).play_vals = [] := by
    have h1 : (calc_pairs cards).play_vals =
        bucketed (fun i => if 1 < cards_get_value_counts cards i
          then cards_get_value_counts cards i else 0) (List.range RANK_COUNT) := rfl
    rw [h1]
    apply bucketed_range_nil
    intro i hi
    have := hle1 i hi
    rw [if_neg (by omega)]
  have hhigh : (calc_pairs cards).high_vals =
      bucketed (fun i => (cards_get_values cards).count ((i : Nat) : Int))
        (List.range RANK_COUNT) := by
    have h2 : (calc_pairs cards).high_vals =
        bucketed (fun i => if cards_get_value_counts cards i = 1
          then cards_get_value_counts cards i else 0) (List.range RANK_COUNT) := rfl
    rw [h2]
    apply bucketed_range_congr
    intro i hi
    have := hle1 i hi
    by_cases h1 : cards_get_value_counts cards i = 1
    · rw [if_pos h1]
      rfl
    · rw [if_neg h1]
      have h0' : cards_get_value_counts cards i = 0 := by omega
      exact h0'.symm
  have hl := values_in_range cards hval
  have hperm := bucketed_range_perm (cards_get_values cards) RANK_COUNT hl
  refine ⟨hplay, ?_, ?_, ?_⟩
  · rw [hhigh]
    exact hperm
  · rw [hhigh]
    exact sorted_bucketed_range _ _
  · rw [hhigh, hperm.length_eq]
    simp [cards_get_values, hlen]

/-- C3 counterexample: for the High Card hand `2H 4D 6C 8S TC` the code stores
nothing in `play_vals` (deciding values) and all five ranks, ascending, in
`high_vals` (kickers) — the claim instead requires all five ranks descending
in the deciding values with empty kickers; for the Royal Flush hand both
sequences are empty; and for the straight flush `2H 3H 4H 5H 6H` the deciding
values are kept in hand order (ascending here), not sorted descending. -/
theorem c3_shape_counterexample :
    (calculate_play [card_make '2' 'H', card_make '4' 'D', card_make '6' 'C',
        card_make '8' 'S', card_make 'T' 'C']).score = 0 ∧
    (calculate_play [card_make '2' 'H', card_make '4' 'D', card_make '6' 'C',
        card_make '8' 'S', card_make 'T' 'C']).play_vals = [] ∧
    (calculate_play [card_make '2' 'H', card_make '4' 'D', card_make '6' 'C',
        card_make '8' 'S', card_make 'T' 'C']).high_vals = [0, 2, 4, 6, 8] ∧
    (calculate_play [card_make 'A' 'H', card_make 'K' 'H', card_make 'Q' 'H',
        card_make 'J' 'H', card_make 'T' 'H']).score = 9 ∧
    (calculate_play [card_make 'A' 'H', card_make 'K' 'H', card_make 'Q' 'H',
        card_make 'J' 'H', card_make 'T' 'H']).play_vals = [] ∧
    (calculate_play [card_make '2' 'H', card_make '3' 'H', card_make '4' 'H',
        card_make '5' 'H', card_make '6' 'H']).score = 8 ∧
    (calculate_play [card_make '2' 'H', card_make '3' 'H', card_make '4' 'H',
        card_make '5' 'H', card_make '6' 'H']).play_vals = [0, 1, 2, 3, 4] := by
  refine ⟨by decide, by decide, by decide, by decide, by decide, by decide, by decide⟩

/-- C3 amended: for a well-formed 5-card hand (valid ordinals, no rank five
times): for category-rank play (scores 1, 2, 3, 6, 7) the deciding and kicker
lengths sum to 5; for Straight, Flush and Straight Flush (4, 5, 8) the
deciding values are the five card values in hand order and the kickers are
empty; for Royal Flush (9) both sequences are empty; and for High Card (0)
the deciding values are empty while the kickers hold all five ranks sorted
ascending. -/
theorem c3_shape_amended (cards : List Card) (hlen : cards.length = 5)
    (hval : ∀ cd ∈ cards, 0 ≤ cd.value ∧ cd.value ≤ 12)
    (hno5 : ∀ x ∈ cards_get_values cards, (cards_get_values cards).count x ≤ 4) :
    ((calculate_play cards).score = 1 ∨ (calculate_play cards).score = 2 ∨
      (calculate_play cards).score = 3 ∨ (calculate_play cards).score = 6 ∨
      (calculate_play cards).score = 7 →
      (calculate_play cards).play_vals.length + (calculate_play cards).high_vals.length = 5) ∧
    ((calculate_play cards).score = 4 ∨ (calculate_play cards).score = 5 ∨
      (calculate_play cards).score = 8 →
      (calculate_play cards).play_vals = cards_get_values cards ∧
      (calculate_play cards).play_vals.length = 5 ∧
      (calculate_play cards).high_vals = []) ∧
    ((calculate_play cards).score = 9 →
      (calculate_play cards).play_vals = [] ∧ (calculate_play cards).high_vals = []) ∧
    ((calculate_play cards).score = 0 →
      (calculate_play cards).play_vals = [] ∧
      (calculate_play cards).high_vals.Perm (cards_get_values cards) ∧
      (calculate_play cards).high_vals.Sorted (· ≤ ·) ∧
      (calculate_play cards).high_vals.length = 5) := by
  have hvlen : (cards_get_values cards).length = 5 := by simp [cards_get_values, hlen]
  by_cases hSF : is_straight cards = true ∧ is_flush cards = true
  · by_cases hR : is_royal cards = true
    · have hcp : calculate_play cards =
          { score := 9, play_vals := [], high_vals := [] } := by
        simp [calculate_play, hSF, hR]
      rw [hcp]
      refine ⟨?_, ?_, fun _ => ⟨rfl, rfl⟩, ?_⟩
      · intro h
        simp at h
      · intro h
        simp at h
      · intro h
        simp at h
    · have hcp : calculate_play cards =
          { score := 8, play_vals := cards_get_values cards, high_vals := [] } := by
        simp [calculate_play, hSF, hR]
      rw [hcp]
      refine ⟨?_, fun _ => ⟨rfl, hvlen, rfl⟩, ?_, ?_⟩
      · intro h
        simp at h
      · intro h
        simp at h
      · intro h
        simp at h
  · by_cases hS : is_straight cards = true ∧ (calc_pairs cards).score < 4
    · have hFf : is_flush cards = false := by
        cases h : is_flush cards
        · rfl
        · exact absurd ⟨hS.1, h⟩ hSF
      have hcp : calculate_play cards =
          { score := 4, play_vals := cards_get_values cards, high_vals := [] } := by
        simp [calculate_play, hS.1, hS.2, hFf]
      rw [hcp]
      refine ⟨?_, fun _ => ⟨rfl, hvlen, rfl⟩, ?_, ?_⟩
      · intro h
        simp at h
      · intro h
        simp at h
      · intro h
        simp at h
    · by_cases hF : is_flush cards = true ∧ (calc_pairs cards).score < 5
      · have hSf : is_straight cards = false := by
          cases h : is_straight cards
          · rfl
          · exact absurd ⟨h, hF.1⟩ hSF
        have hcp : calculate_play cards =
            { score := 5, play_vals := cards_get_values cards, high_vals := [] } := by
          simp [calculate_play, hSf, hF.1, hF.2]
        rw [hcp]
        refine ⟨?_, fun _ => ⟨rfl, hvlen, rfl⟩, ?_, ?_⟩
        · intro h
          simp at h
        · intro h
          simp at h
        · intro h
          simp at h
      · have hcp : calculate_play cards = calc_pairs cards := by
          simp [calculate_play, hS, hF, hSF]
        have hcases := calc_pairs_score_cases cards hlen hval hno5
        rw [hcp]
        refine ⟨fun _ => calc_pairs_lengths cards hlen hval, ?_, ?_, ?_⟩
        · intro h
          rcases hcases with h0 | h0 | h0 | h0 | h0 | h0 <;> rw [h0] at h <;>
            exact absurd h (by decide)
        · intro h
          rcases hcases with h0 | h0 | h0 | h0 | h0 | h0 <;> rw [h0] at h <;>
            exact absurd h (by decide)
        · intro h
          exact calc_pairs_high_card cards hlen hval hno5 h

theorem c3_shape_amended_witness :
    (calculate_play [card_make 'K' 'H', card_make 'K' 'D', card_make '7' 'C',
        card_make '5' 'S', card_make '2' 'H']).play_vals.length +
      (calculate_play [card_make 'K' 'H', card_make 'K' 'D', card_make '7' 'C',
        card_make '5' 'S', card_make '2' 'H']).high_vals.length = 5 :=
  (c3_shape_amended [card_make 'K' 'H', card_make 'K' 'D', card_make '7' 'C',
      card_make '5' 'S', card_make '2' 'H'] (by decide) (by decide) (by decide)).1
    (Or.inl (by decide))
